import Mathlib

/-!
Verification development for the workflows-go event-driven workflow engine.

The Go source (`main.go`) defines three components:
  * `BaseEvent`: a record with a `NextStep` label and a `Data` payload
    (`map[string]string`);
  * `BaseContext`: a mutable container with `Store` and `State` maps
    (`map[string]any`);
  * `BaseWorkflow`: a name-to-step-function table with a `FirstStep` name,
    offering `Validate`, `TakeStep`, `Run` and `Output`.

Modelling conventions of this shallow embedding:
  * Go maps are modelled as association lists (`List (String × α)`) with
    first-match lookup (`mapGet`) and in-place overwrite insertion (`mapSet`);
    Go map indexing `m[k]` with the comma-ok form corresponds to `mapGet m k`.
  * Go's `any`-valued maps are modelled with a type parameter `α`; the zero
    value an absent lookup yields for an `any`-typed variable is `none`,
    and for a `string`-typed variable it is `""`.
  * Step functions mutate the context through a pointer in Go; here they are
    embedded in state-passing style, `BaseEvent → BaseContext α →
    BaseEvent × BaseContext α`, and so are `TakeStep` and the `Run` loop.
  * `Run`'s callback invocations are recorded in an explicit trace
    (`List CB`); the unbounded `for` loop is given a fuel parameter, and
    `none` means the loop did not finish within the given fuel.
-/

namespace WorkflowsGo

/-- Go map indexing with the comma-ok idiom, on the association-list model:
first entry whose key matches, `none` when the key is absent. -/
def mapGet {α : Type} : List (String × α) → String → Option α
  | [], _ => none
  | (k, v) :: rest, key => if k = key then some v else mapGet rest key

/-- Go map assignment `m[key] = val`: overwrites the entry for `key` in
place, or appends a fresh one when `key` is absent. -/
def mapSet {α : Type} : List (String × α) → String → α → List (String × α)
  | [], key, val => [(key, val)]
  | (k, v) :: rest, key, val =>
    if k = key then (key, val) :: rest else (k, v) :: mapSet rest key val

/-- Structure `BaseEvent` from `main.go`: a `NextStep` label and a `Data` payload. -/
structure BaseEvent where
  NextStep : String
  Data : List (String × String)
deriving DecidableEq

/-- Method `BaseEvent.Get`: `val, success = ev.Data[key]`; on an absent key the
string zero value `""` is returned together with `false`. -/
def BaseEvent.Get (ev : BaseEvent) (key : String) : String × Bool :=
  match mapGet ev.Data key with
  | some v => (v, true)
  | none => ("", false)

/-- Constructor `NewBaseEvent` from `main.go`. -/
def NewBaseEvent (followingStep : String) (data : List (String × String)) :
    BaseEvent :=
  { Data := data, NextStep := followingStep }

/-- Structure `BaseContext` from `main.go`: a `Store` map (persistent storage) and a
`State` map (stateful execution), with values of type `α` standing for Go's
`any`. -/
structure BaseContext (α : Type) where
  Store : List (String × α)
  State : List (String × α)

/-- Constructor `NewBaseContext` from `main.go`. -/
def NewBaseContext {α : Type} (store state : List (String × α)) :
    BaseContext α :=
  { Store := store, State := state }

/-- Method `BaseContext.StoreValue`: `ctx.Store[key] = val`, embedded as returning
the updated context. -/
def BaseContext.StoreValue {α : Type} (ctx : BaseContext α) (key : String)
    (val : α) : BaseContext α :=
  { ctx with Store := mapSet ctx.Store key val }

/-- Method `BaseContext.GetValue`: `val, success = ctx.Store[key]`; the `any` zero
value on an absent key is `none`. -/
def BaseContext.GetValue {α : Type} (ctx : BaseContext α) (key : String) :
    Option α × Bool :=
  match mapGet ctx.Store key with
  | some v => (some v, true)
  | none => (none, false)

/-- Method `BaseContext.GetState`: returns `ctx.State`. -/
def BaseContext.GetState {α : Type} (ctx : BaseContext α) :
    List (String × α) :=
  ctx.State

/-- Method `BaseContext.SetState`: `ctx.State = state`, embedded as returning the
updated context. -/
def BaseContext.SetState {α : Type} (ctx : BaseContext α)
    (state : List (String × α)) : BaseContext α :=
  { ctx with State := state }

/-- Structure `BaseWorkflow` from `main.go`: a first-step name, an associated context
and a step table mapping names to step functions (state-passing embedding of
`func(*BaseEvent, *BaseContext) *BaseEvent`). -/
structure BaseWorkflow (α : Type) where
  FirstStep : String
  Context : BaseContext α
  Steps : List (String × (BaseEvent → BaseContext α → BaseEvent × BaseContext α))

/-- The loop body of `BaseWorkflow.Validate`: walks the step-table keys and
fails on the first one equal to `"end"`. -/
def validateKeys : List String → Bool × Option String
  | [] => (true, none)
  | k :: rest =>
    if k = "end" then
      (false, some "`end` is a reserved keyword, you cannot use it as a name for your steps")
    else validateKeys rest

/-- Method `BaseWorkflow.Validate` from `main.go`: iterates over the keys of
`wf.Steps`, returning `(false, error)` if any key is `"end"`, else
`(true, nil)` — `nil` is modelled as `none`. -/
def BaseWorkflow.Validate {α : Type} (wf : BaseWorkflow α) :
    Bool × Option String :=
  validateKeys (wf.Steps.map Prod.fst)

/-- Method `BaseWorkflow.TakeStep` from `main.go`: looks `stepName` up in
`wf.Steps`; if absent, synthesizes a terminal event carrying the
`fmt.Sprintf` diagnostic under `"output"`; if present, calls the step. -/
def BaseWorkflow.TakeStep {α : Type} (wf : BaseWorkflow α) (stepName : String)
    (ev : BaseEvent) (ctx : BaseContext α) : BaseEvent × BaseContext α :=
  match mapGet wf.Steps stepName with
  | none =>
    (NewBaseEvent "end"
      [("output",
        "There was an error while executing step " ++ stepName ++
          ": the step does not exist")], ctx)
  | some step => step ev ctx

/-- Method `BaseWorkflow.Output` from `main.go`: on a terminal event, the payload's
`"output"` value if present, else `"No output produced"`; on a non-terminal
event, `"Not an output step"`. The `ctx` argument is received but unused,
exactly as in the source. -/
def BaseWorkflow.Output {α : Type} (wf : BaseWorkflow α) (ev : BaseEvent)
    (ctx : BaseContext α) : String :=
  if ev.NextStep = "end" then
    let p := ev.Get "output"
    if p.2 then p.1 else "No output produced"
  else "Not an output step"

/-- One recorded callback invocation made by `Run`: the on-event-start
callback, the on-event-end callback, or the on-output callback. -/
inductive CB where
  | onStart : BaseEvent → CB
  | onEnd : BaseEvent → CB
  | onOutput : String → CB
deriving DecidableEq

/-- The `for` loop of `BaseWorkflow.Run`, with fuel bounding the number of
iterations: each iteration records `onStart event`; if `event.NextStep` is
`"end"` it records `onOutput (wf.Output event ctx)` and stops, otherwise it
dispatches `TakeStep event.NextStep event ctx`, records `onEnd` with the
newly produced event, and continues. `none` means the fuel ran out before
the loop terminated. -/
def BaseWorkflow.runAux {α : Type} (wf : BaseWorkflow α) :
    Nat → BaseEvent → BaseContext α → Option (List CB)
  | 0, _, _ => none
  | fuel + 1, event, ctx =>
    if event.NextStep = "end" then
      some [CB.onStart event, CB.onOutput (wf.Output event ctx)]
    else
      let next := wf.TakeStep event.NextStep event ctx
      match wf.runAux fuel next.1 next.2 with
      | none => none
      | some rest => some (CB.onStart event :: CB.onEnd next.1 :: rest)

/-- Method `BaseWorkflow.Run` from `main.go`: first dispatches `wf.FirstStep` on
the input event, then enters the loop (`runAux`), returning the trace of
callback invocations when the loop terminates within `fuel` iterations. -/
def BaseWorkflow.Run {α : Type} (wf : BaseWorkflow α) (fuel : Nat)
    (inputEvent : BaseEvent) (context : BaseContext α) : Option (List CB) :=
  let first := wf.TakeStep wf.FirstStep inputEvent context
  wf.runAux fuel first.1 first.2

/-- One transition of the event chain `Run` follows: a terminal pair is a
fixed point, otherwise the next pair is `TakeStep` on the current event's
`NextStep` label. -/
def BaseWorkflow.runStep {α : Type} (wf : BaseWorkflow α)
    (p : BaseEvent × BaseContext α) : BaseEvent × BaseContext α :=
  if p.1.NextStep = "end" then p else wf.TakeStep p.1.NextStep p.1 p.2

/-- Number of on-event-start callback invocations in a trace. -/
def countStart (tr : List CB) : Nat :=
  tr.countP fun c => match c with | CB.onStart _ => true | _ => false

/-- Number of on-event-end callback invocations in a trace. -/
def countEnd (tr : List CB) : Nat :=
  tr.countP fun c => match c with | CB.onEnd _ => true | _ => false

/-- Number of on-output callback invocations in a trace. -/
def countOutput (tr : List CB) : Nat :=
  tr.countP fun c => match c with | CB.onOutput _ => true | _ => false

/-- An empty context over string values, mirroring
`NewBaseContext(map[string]any{}, map[string]any{})` in the tests. -/
def emptyCtxS : BaseContext String := NewBaseContext [] []

/-- The test suite's `mockStep`: always returns a terminal event with
payload `{"output": "hello world"}` and leaves the context unchanged. -/
def mockStep : BaseEvent → BaseContext String → BaseEvent × BaseContext String :=
  fun _ ctx => (NewBaseEvent "end" [("output", "hello world")], ctx)

/-- Single-step workflow: first step `"s1"` is `mockStep`. -/
def wfHello : BaseWorkflow String :=
  { FirstStep := "s1", Context := emptyCtxS, Steps := [("s1", mockStep)] }

/-- First step of the two-step chain: hands off to `"s2"`. -/
def stepOne : BaseEvent → BaseContext String → BaseEvent × BaseContext String :=
  fun _ ctx => (NewBaseEvent "s2" [], ctx)

/-- Second step of the two-step chain: terminal event with output
`"done"`. -/
def stepTwo : BaseEvent → BaseContext String → BaseEvent × BaseContext String :=
  fun _ ctx => (NewBaseEvent "end" [("output", "done")], ctx)

/-- Two-step chain workflow `"s1" -> "s2" -> "end"`. -/
def wfChain : BaseWorkflow String :=
  { FirstStep := "s1", Context := emptyCtxS,
    Steps := [("s1", stepOne), ("s2", stepTwo)] }

/-- Cyclic workflow: its only step always names itself as next step, so the
terminal label is never produced. -/
def wfLoop : BaseWorkflow String :=
  { FirstStep := "s1", Context := emptyCtxS,
    Steps := [("s1", fun _ ctx => (NewBaseEvent "s1" [], ctx))] }

/-- Workflow whose first step is absent from the table and whose only step
names a nonexistent next step, to exercise the absence of structural checks
in `Validate`. -/
def wfDangling : BaseWorkflow String :=
  { FirstStep := "missing", Context := emptyCtxS,
    Steps := [("s1", fun _ ctx => (NewBaseEvent "ghost" [], ctx))] }

/-- Workflow that violates the reserved-name rule: a step named `"end"`. -/
def wfReserved : BaseWorkflow String :=
  { FirstStep := "end", Context := emptyCtxS, Steps := [("end", mockStep)] }

/-- Overwriting a key makes a subsequent lookup of that key return the new
value. -/
theorem mapGet_mapSet_self {α : Type} (l : List (String × α)) (key : String)
    (val : α) : mapGet (mapSet l key val) key = some val := by
  induction l with
  | nil => simp [mapSet, mapGet]
  | cons hd tl ih =>
    obtain ⟨k, v⟩ := hd
    by_cases hk : k = key
    · simp [mapSet, mapGet, hk]
    · simp [mapSet, mapGet, hk, ih]

/-- Lemma: `validateKeys` fails exactly when `"end"` occurs among the keys, and
succeeds with `(true, none)` otherwise. -/
theorem validateKeys_spec (l : List String) :
    ("end" ∈ l → (validateKeys l).1 = false ∧ (validateKeys l).2 ≠ none) ∧
    ("end" ∉ l → validateKeys l = (true, none)) := by
  induction l with
  | nil => simp [validateKeys]
  | cons k rest ih =>
    by_cases hk : k = "end"
    · subst hk
      simp [validateKeys]
    · constructor
      · intro hmem
        rcases List.mem_cons.mp hmem with h | h
        · exact absurd h.symm hk
        · simpa [validateKeys, hk] using ih.1 h
      · intro hmem
        have : "end" ∉ rest := fun h => hmem (List.mem_cons_of_mem _ h)
        simpa [validateKeys, hk] using ih.2 this

/-- C6: for every event and key, `Get` returns the stored value together
with `true` when the key is present in the payload, and the zero value
together with `false` when it is absent. -/
theorem event_get_lookup (ev : BaseEvent) (k : String) :
    (∀ v, mapGet ev.Data k = some v → ev.Get k = (v, true)) ∧
    (mapGet ev.Data k = none → ev.Get k = ("", false)) := by
  constructor
  · intro v hv
    simp [BaseEvent.Get, hv]
  · intro hv
    simp [BaseEvent.Get, hv]

/-- Witness for C6 at a concrete event: the key `"key"` is present with
value `"hello"`, the key `"nope"` is absent. -/
theorem event_get_lookup_witness :
    mapGet (NewBaseEvent "step1" [("key", "hello")]).Data "key" = some "hello" ∧
    (NewBaseEvent "step1" [("key", "hello")]).Get "key" = ("hello", true) ∧
    mapGet (NewBaseEvent "step1" [("key", "hello")]).Data "nope" = none ∧
    (NewBaseEvent "step1" [("key", "hello")]).Get "nope" = ("", false) :=
  ⟨rfl,
    (event_get_lookup (NewBaseEvent "step1" [("key", "hello")]) "key").1
      "hello" rfl,
    rfl,
    (event_get_lookup (NewBaseEvent "step1" [("key", "hello")]) "nope").2 rfl⟩

/-- C7: a freshly constructed context's `GetState` is exactly the given
state, and after `SetState s2` the state is exactly `s2`, whatever the prior
contents. -/
theorem context_state_exact {α : Type} (store state : List (String × α))
    (ctx : BaseContext α) (s2 : List (String × α)) :
    (NewBaseContext store state).GetState = state ∧
    (ctx.SetState s2).GetState = s2 :=
  ⟨rfl, rfl⟩

/-- C8: after `StoreValue k v`, `GetValue k` returns `(v, true)` whether or
not `k` existed before, and `GetValue` on an absent key returns the zero
value with `false` instead of failing. -/
theorem store_get_roundtrip {α : Type} (ctx : BaseContext α) (k : String)
    (v : α) :
    (ctx.StoreValue k v).GetValue k = (some v, true) ∧
    (mapGet ctx.Store k = none → ctx.GetValue k = (none, false)) := by
  constructor
  · simp [BaseContext.StoreValue, BaseContext.GetValue, mapGet_mapSet_self]
  · intro h
    simp [BaseContext.GetValue, h]

/-- Witness for C8 at a concrete context: storing under the existing key
`"user"` overwrites, storing under the fresh key `"apiCredit"` creates, and
reading the absent key `"nope"` reports `false`. -/
theorem store_get_roundtrip_witness :
    ((NewBaseContext [("user", 30)] []).StoreValue "user" 25).GetValue "user" =
      (some 25, true) ∧
    ((NewBaseContext [("user", 30)] []).StoreValue "apiCredit" 200).GetValue
      "apiCredit" = (some 200, true) ∧
    mapGet (NewBaseContext [("user", 30)] ([] : List (String × Nat))).Store
      "nope" = none ∧
    (NewBaseContext [("user", 30)] ([] : List (String × Nat))).GetValue
      "nope" = (none, false) :=
  ⟨(store_get_roundtrip (NewBaseContext [("user", 30)] []) "user" 25).1,
    (store_get_roundtrip (NewBaseContext [("user", 30)] []) "apiCredit" 200).1,
    rfl,
    (store_get_roundtrip (NewBaseContext [("user", 30)] []) "nope" 0).2 rfl⟩

/-- C9: `Store` and `State` are independent namespaces — `StoreValue`
leaves the state mapping unchanged, `SetState` leaves the store mapping
unchanged while fully replacing the state, and the readers `GetValue` and
`GetState` are pure (they are embedded as functions that return no updated
context, and `GetState` returns exactly the state field). -/
theorem store_state_independent {α : Type} (ctx : BaseContext α) (k : String)
    (v : α) (s2 : List (String × α)) :
    (ctx.StoreValue k v).State = ctx.State ∧
    (ctx.SetState s2).Store = ctx.Store ∧
    (ctx.SetState s2).State = s2 ∧
    ctx.GetState = ctx.State :=
  ⟨rfl, rfl, rfl, rfl⟩

/-- C10: `Output` does not depend on the context argument: any two contexts
give the same result on the same event. -/
theorem output_context_independent {α : Type} (wf : BaseWorkflow α)
    (ev : BaseEvent) (c1 c2 : BaseContext α) :
    wf.Output ev c1 = wf.Output ev c2 := rfl

/-- C4: on a terminal event `Output` returns the payload's `"output"` value
when present and the `"No output produced"` fallback when absent; on a
non-terminal event it returns the `"Not an output step"` sentinel. -/
theorem output_terminal_and_sentinel {α : Type} (wf : BaseWorkflow α)
    (ev : BaseEvent) (ctx : BaseContext α) :
    (ev.NextStep = "end" →
      (∀ v, mapGet ev.Data "output" = some v → wf.Output ev ctx = v) ∧
      (mapGet ev.Data "output" = none →
        wf.Output ev ctx = "No output produced")) ∧
    (ev.NextStep ≠ "end" → wf.Output ev ctx = "Not an output step") := by
  constructor
  · intro hend
    constructor
    · intro v hv
      simp [BaseWorkflow.Output, hend, BaseEvent.Get, hv]
    · intro hv
      simp [BaseWorkflow.Output, hend, BaseEvent.Get, hv]
  · intro hne
    simp [BaseWorkflow.Output, hne]

/-- Witness for C4 at concrete events: a terminal event with an `"output"`
entry, a terminal event without one, and a non-terminal event that carries
an `"output"` entry yet still gets the sentinel. -/
theorem output_terminal_and_sentinel_witness :
    wfHello.Output (NewBaseEvent "end" [("output", "hello world")])
      emptyCtxS = "hello world" ∧
    wfHello.Output (NewBaseEvent "end" [("k", "v")]) emptyCtxS =
      "No output produced" ∧
    wfHello.Output (NewBaseEvent "s1" [("output", "hello world")])
      emptyCtxS = "Not an output step" :=
  ⟨((output_terminal_and_sentinel wfHello
        (NewBaseEvent "end" [("output", "hello world")]) emptyCtxS).1
      rfl).1 "hello world" rfl,
    ((output_terminal_and_sentinel wfHello (NewBaseEvent "end" [("k", "v")])
        emptyCtxS).1 rfl).2 rfl,
    (output_terminal_and_sentinel wfHello
        (NewBaseEvent "s1" [("output", "hello world")]) emptyCtxS).2
      (by decide)⟩

/-- C3: `Validate` fails (returns `false` with a non-nil error) exactly when
some key of the step table equals the reserved terminal name `"end"`, and
otherwise returns `(true, none)`; it performs no other structural check, as
`wfDangling` — whose first step is absent from its table and whose only step
names a nonexistent step — still validates. -/
theorem validate_reserved_name_only {α : Type} (wf : BaseWorkflow α) :
    ((wf.Validate.1 = false ∧ wf.Validate.2 ≠ none) ↔
      "end" ∈ wf.Steps.map Prod.fst) ∧
    ("end" ∉ wf.Steps.map Prod.fst → wf.Validate = (true, none)) ∧
    wfDangling.Validate = (true, none) := by
  refine ⟨⟨?_, ?_⟩, ?_, rfl⟩
  · intro h
    by_contra hmem
    have := (validateKeys_spec (wf.Steps.map Prod.fst)).2 hmem
    rw [BaseWorkflow.Validate] at h
    rw [this] at h
    exact absurd rfl h.2
  · intro hmem
    exact (validateKeys_spec (wf.Steps.map Prod.fst)).1 hmem
  · intro hmem
    exact (validateKeys_spec (wf.Steps.map Prod.fst)).2 hmem

/-- Witness for C3 at concrete workflows: `wfHello` (no reserved key)
validates, and a workflow with a step named `"end"` fails with a non-nil
error. -/
theorem validate_reserved_name_only_witness :
    wfHello.Validate = (true, none) ∧
    wfReserved.Validate.1 = false ∧ wfReserved.Validate.2 ≠ none :=
  ⟨(validate_reserved_name_only wfHello).2.1 (by decide),
    ((validate_reserved_name_only wfReserved).1.mpr (by decide)).1,
    ((validate_reserved_name_only wfReserved).1.mpr (by decide)).2⟩

/-- C2: `TakeStep` on a name absent from the step table does not fail: it
synthesizes a terminal event whose `"output"` payload entry is a message
containing the missing name; on a present name it returns exactly what the
step function returns. -/
theorem takeStep_missing_and_present {α : Type} (wf : BaseWorkflow α)
    (name : String) (ev : BaseEvent) (ctx : BaseContext α) :
    (mapGet wf.Steps name = none →
      (wf.TakeStep name ev ctx).1.NextStep = "end" ∧
      (wf.TakeStep name ev ctx).2 = ctx ∧
      ∃ pre post,
        ((wf.TakeStep name ev ctx).1.Get "output").2 = true ∧
        ((wf.TakeStep name ev ctx).1.Get "output").1 =
          pre ++ name ++ post) ∧
    (∀ f, mapGet wf.Steps name = some f →
      wf.TakeStep name ev ctx = f ev ctx) := by
  constructor
  · intro h
    refine ⟨?_, ?_, "There was an error while executing step ",
      ": the step does not exist", ?_, ?_⟩
    · simp [BaseWorkflow.TakeStep, h, NewBaseEvent]
    · simp [BaseWorkflow.TakeStep, h]
    · simp [BaseWorkflow.TakeStep, h, NewBaseEvent, BaseEvent.Get, mapGet]
    · simp [BaseWorkflow.TakeStep, h, NewBaseEvent, BaseEvent.Get, mapGet]
  · intro f hf
    simp [BaseWorkflow.TakeStep, hf]

/-- Witness for C2 at `wfHello`: dispatching the absent name `"nope"`
yields a terminal diagnostic event, and dispatching the present name `"s1"`
yields exactly `mockStep`'s result. -/
theorem takeStep_missing_and_present_witness :
    mapGet wfHello.Steps "nope" = none ∧
    (wfHello.TakeStep "nope" (NewBaseEvent "a" []) emptyCtxS).1.NextStep =
      "end" ∧
    mapGet wfHello.Steps "s1" = some mockStep ∧
    wfHello.TakeStep "s1" (NewBaseEvent "a" []) emptyCtxS =
      mockStep (NewBaseEvent "a" []) emptyCtxS :=
  ⟨rfl,
    ((takeStep_missing_and_present wfHello "nope" (NewBaseEvent "a" [])
        emptyCtxS).1 rfl).1,
    rfl,
    (takeStep_missing_and_present wfHello "s1" (NewBaseEvent "a" [])
        emptyCtxS).2 mockStep rfl⟩

/-- The trace produced by running `wfHello`: one `onStart` (for the
terminal event), no `onEnd`, one `onOutput` with `"hello world"`. -/
def trHello : List CB :=
  [CB.onStart (NewBaseEvent "end" [("output", "hello world")]),
    CB.onOutput "hello world"]

/-- The trace produced by running `wfChain`: two `onStart`, one `onEnd`
(for the intermediate transition into `"s2"`), one `onOutput`. -/
def trChain : List CB :=
  [CB.onStart (NewBaseEvent "s2" []),
    CB.onEnd (NewBaseEvent "end" [("output", "done")]),
    CB.onStart (NewBaseEvent "end" [("output", "done")]),
    CB.onOutput "done"]

/-- Shape of every terminating loop trace: one more `onStart` than `onEnd`,
exactly one `onOutput`, and the trace ends with `onStart` of a terminal
event followed by `onOutput` of `Output` applied to that event. -/
theorem runAux_trace_spec {α : Type} (wf : BaseWorkflow α) :
    ∀ (fuel : Nat) (ev : BaseEvent) (ctx : BaseContext α) (tr : List CB),
      wf.runAux fuel ev ctx = some tr →
      countStart tr = countEnd tr + 1 ∧ countOutput tr = 1 ∧
      ∃ pre evT ctxT, evT.NextStep = "end" ∧
        tr = pre ++ [CB.onStart evT, CB.onOutput (wf.Output evT ctxT)] := by
  intro fuel
  induction fuel with
  | zero =>
    intro ev ctx tr h
    simp [BaseWorkflow.runAux] at h
  | succ n ih =>
    intro ev ctx tr h
    rw [BaseWorkflow.runAux] at h
    by_cases hend : ev.NextStep = "end"
    · rw [if_pos hend] at h
      obtain rfl : _ = tr := Option.some.inj h
      refine ⟨by simp [countStart, countEnd], by simp [countOutput],
        [], ev, ctx, hend, by simp⟩
    · rw [if_neg hend] at h
      cases hr : wf.runAux n (wf.TakeStep ev.NextStep ev ctx).1
          (wf.TakeStep ev.NextStep ev ctx).2 with
      | none =>
        simp [hr] at h
      | some rest =>
        simp only [hr, Option.some.injEq] at h
        subst h
        obtain ⟨h1, h2, pre, evT, ctxT, hT, htr⟩ := ih _ _ rest hr
        refine ⟨?_, ?_,
          CB.onStart ev :: CB.onEnd (wf.TakeStep ev.NextStep ev ctx).1 :: pre,
          evT, ctxT, hT, ?_⟩
        · simp only [countStart, countEnd, List.countP_cons] at h1 ⊢
          omega
        · simpa [countOutput, List.countP_cons] using h2
        · simp [htr]

/-- C1: for every workflow run that terminates, the recorded callback trace
has exactly one more `onStart` than `onEnd` and exactly one `onOutput`,
whose argument is `Output` applied to the terminal event (and the trace ends
right after that `onOutput`); `Run` starts by dispatching `FirstStep` on the
input event; concretely, the single-step `wfHello` yields one `onStart`, no
`onEnd` and `onOutput "hello world"`, and the two-step `wfChain` yields two
`onStart` and one `onEnd`. -/
theorem run_callback_discipline :
    (∀ (α : Type) (wf : BaseWorkflow α) (fuel : Nat) (ev : BaseEvent)
        (ctx : BaseContext α),
      wf.Run fuel ev ctx =
        wf.runAux fuel (wf.TakeStep wf.FirstStep ev ctx).1
          (wf.TakeStep wf.FirstStep ev ctx).2) ∧
    (∀ (α : Type) (wf : BaseWorkflow α) (fuel : Nat) (ev : BaseEvent)
        (ctx : BaseContext α) (tr : List CB),
      wf.Run fuel ev ctx = some tr →
      countStart tr = countEnd tr + 1 ∧ countOutput tr = 1 ∧
      ∃ pre evT ctxT, evT.NextStep = "end" ∧
        tr = pre ++ [CB.onStart evT, CB.onOutput (wf.Output evT ctxT)]) ∧
    wfHello.Run 5 (NewBaseEvent "mockEvent" [("mock", "event")]) emptyCtxS =
      some trHello ∧
    countStart trHello = 1 ∧ countEnd trHello = 0 ∧
    countOutput trHello = 1 ∧ trHello.getLast? = some (CB.onOutput "hello world") ∧
    wfChain.Run 5 (NewBaseEvent "go" []) emptyCtxS = some trChain ∧
    countStart trChain = 2 ∧ countEnd trChain = 1 ∧ countOutput trChain = 1 ∧
    trChain.getLast? = some (CB.onOutput "done") := by
  refine ⟨fun α wf fuel ev ctx => rfl, fun α wf fuel ev ctx tr h => ?_,
    by decide, by decide, by decide, by decide, by decide, by decide,
    by decide, by decide, by decide, by decide⟩
  exact runAux_trace_spec wf fuel _ _ tr h

/-- Witness for C1: the trace property instantiated at `wfHello`'s concrete
terminating run. -/
theorem run_callback_discipline_witness :
    countStart trHello = countEnd trHello + 1 ∧ countOutput trHello = 1 ∧
    ∃ pre evT ctxT, evT.NextStep = "end" ∧
      trHello = pre ++ [CB.onStart evT, CB.onOutput (wfHello.Output evT ctxT)] :=
  run_callback_discipline.2.1 String wfHello 5
    (NewBaseEvent "mockEvent" [("mock", "event")]) emptyCtxS trHello
    (by decide)

/-- A terminating loop run reaches a terminal event along the `runStep`
chain. -/
theorem runAux_reaches_end {α : Type} (wf : BaseWorkflow α) :
    ∀ (fuel : Nat) (ev : BaseEvent) (ctx : BaseContext α) (tr : List CB),
      wf.runAux fuel ev ctx = some tr →
      ∃ n, ((wf.runStep)^[n] (ev, ctx)).1.NextStep = "end" := by
  intro fuel
  induction fuel with
  | zero =>
    intro ev ctx tr h
    simp [BaseWorkflow.runAux] at h
  | succ n ih =>
    intro ev ctx tr h
    by_cases hend : ev.NextStep = "end"
    · exact ⟨0, hend⟩
    · rw [BaseWorkflow.runAux, if_neg hend] at h
      cases hr : wf.runAux n (wf.TakeStep ev.NextStep ev ctx).1
          (wf.TakeStep ev.NextStep ev ctx).2 with
      | none =>
        simp [hr] at h
      | some rest =>
        obtain ⟨m, hm⟩ := ih _ _ rest hr
        refine ⟨m + 1, ?_⟩
        rw [Function.iterate_succ_apply]
        have hrs : wf.runStep (ev, ctx) = wf.TakeStep ev.NextStep ev ctx := by
          simp [BaseWorkflow.runStep, hend]
        rw [hrs]
        simpa using hm

/-- Reaching a terminal event along the `runStep` chain in `n` transitions
makes the loop terminate within `n + 1` iterations of fuel. -/
theorem reach_end_runAux {α : Type} (wf : BaseWorkflow α) :
    ∀ (n : Nat) (ev : BaseEvent) (ctx : BaseContext α),
      ((wf.runStep)^[n] (ev, ctx)).1.NextStep = "end" →
      ∃ tr, wf.runAux (n + 1) ev ctx = some tr := by
  intro n
  induction n with
  | zero =>
    intro ev ctx h
    simp only [Function.iterate_zero_apply] at h
    exact ⟨_, by rw [BaseWorkflow.runAux, if_pos h]⟩
  | succ m ih =>
    intro ev ctx h
    by_cases hend : ev.NextStep = "end"
    · exact ⟨_, by rw [BaseWorkflow.runAux, if_pos hend]⟩
    · rw [Function.iterate_succ_apply] at h
      have hrs : wf.runStep (ev, ctx) = wf.TakeStep ev.NextStep ev ctx := by
        simp [BaseWorkflow.runStep, hend]
      rw [hrs] at h
      obtain ⟨tr, htr⟩ := ih (wf.TakeStep ev.NextStep ev ctx).1
        (wf.TakeStep ev.NextStep ev ctx).2 (by simpa using h)
      refine ⟨CB.onStart ev ::
        CB.onEnd (wf.TakeStep ev.NextStep ev ctx).1 :: tr, ?_⟩
      rw [BaseWorkflow.runAux, if_neg hend]
      simp only [htr]

/-- The cyclic workflow's loop never terminates, whatever the fuel. -/
theorem wfLoop_runAux_none :
    ∀ (fuel : Nat) (ctx : BaseContext String),
      wfLoop.runAux fuel (NewBaseEvent "s1" []) ctx = none := by
  intro fuel
  induction fuel with
  | zero => intro ctx; rfl
  | succ n ih =>
    intro ctx
    rw [BaseWorkflow.runAux, if_neg (by decide)]
    have hts : wfLoop.TakeStep (NewBaseEvent "s1" []).NextStep
        (NewBaseEvent "s1" []) ctx = (NewBaseEvent "s1" [], ctx) := rfl
    simp only [hts]
    rw [ih ctx]

/-- C5: `Run` terminates (for some fuel, in the fuel model of the unbounded
`for` loop) exactly when the chain of `runStep` transitions starting from
the first dispatch reaches an event labelled `"end"` in finitely many steps;
and the cyclic `wfLoop`, whose single step always names itself, never
terminates for any fuel. -/
theorem run_termination_characterization :
    (∀ (α : Type) (wf : BaseWorkflow α) (ev : BaseEvent)
        (ctx : BaseContext α),
      (∃ fuel tr, wf.Run fuel ev ctx = some tr) ↔
      (∃ n, ((wf.runStep)^[n]
        (wf.TakeStep wf.FirstStep ev ctx)).1.NextStep = "end")) ∧
    (∀ fuel, wfLoop.Run fuel (NewBaseEvent "go" []) emptyCtxS = none) := by
  constructor
  · intro α wf ev ctx
    constructor
    · rintro ⟨fuel, tr, htr⟩
      obtain ⟨n, hn⟩ := runAux_reaches_end wf fuel
        (wf.TakeStep wf.FirstStep ev ctx).1
        (wf.TakeStep wf.FirstStep ev ctx).2 tr htr
      exact ⟨n, by simpa using hn⟩
    · rintro ⟨n, hn⟩
      obtain ⟨tr, htr⟩ := reach_end_runAux wf n
        (wf.TakeStep wf.FirstStep ev ctx).1
        (wf.TakeStep wf.FirstStep ev ctx).2 (by simpa using hn)
      exact ⟨n + 1, tr, htr⟩
  · intro fuel
    exact wfLoop_runAux_none fuel emptyCtxS

/-- Witness for C5: `wfHello` terminates, so its `runStep` chain provably
reaches the terminal label; conversely the concrete chain position is
checked directly. -/
theorem run_termination_characterization_witness :
    ∃ n, ((wfHello.runStep)^[n]
      (wfHello.TakeStep wfHello.FirstStep (NewBaseEvent "m" [])
        emptyCtxS)).1.NextStep = "end" :=
  (run_termination_characterization.1 String wfHello (NewBaseEvent "m" [])
      emptyCtxS).mp ⟨5, trHello, by decide⟩

end WorkflowsGo
